import Mathlib

/-!
Verification of the `adguard_rewrite` Ansible module
(`plugins/modules/adguard_rewrite.py`).

The module reconciles a desired list of DNS rewrite rules against a list of
AdGuard servers.  The remote HTTP API is modelled by an environment `Env`
that fixes, for each server, the outcome of the `list` call and, for each
server/rule pair, the outcomes of the `add` and `delete` calls.  Every
embedded function additionally returns the list of API calls it issued, so
that statements about "calls made" can be expressed.
-/

/-- A rewrite rule, `{domain, answer}`.  Equality is structural, matching
Python dict equality used by `rewrite in current_rewrites`. -/
structure Rewrite where
  domain : String
  answer : String
deriving DecidableEq, Repr

/-- One AdGuard server entry from the `servers` module parameter. -/
structure Server where
  url : String
  username : String
  password : String
deriving DecidableEq, Repr

/-- An outbound API call issued by the module through `AdGuardClient`. -/
inductive ApiCall where
  | list : Server → ApiCall
  | add : Server → Rewrite → ApiCall
  | delete : Server → Rewrite → ApiCall
deriving DecidableEq, Repr

/-- The remote side: the outcome each API call would have.  An `Except.error`
carries `str(e)` of the exception the client raises (or the transport
raises). -/
structure Env where
  listResult : Server → Except String (List Rewrite)
  addResult : Server → Rewrite → Except String Unit
  deleteResult : Server → Rewrite → Except String Unit

/-- The validated module parameters (`module.params`). -/
structure ModuleData where
  servers : List Server
  rewrites : List Rewrite
  state : String
deriving Repr

/-- What `main` hands back to Ansible: either `fail_json(msg, errors)` or
`exit_json(changed, msg, errors)`. -/
inductive ModuleResult where
  | failJson : String → Option (List String) → ModuleResult
  | exitJson : Bool → String → Option (List String) → ModuleResult
deriving DecidableEq, Repr

/-- Python `str()` of a rewrite dict, as interpolated into error messages:
`{'domain': 'd', 'answer': 'a'}`. -/
def pyRewriteRepr (r : Rewrite) : String :=
  "\x7b\x27domain\x27: \x27" ++ r.domain ++ "\x27, \x27answer\x27: \x27" ++
    r.answer ++ "\x27\x7d"

/-- The message appended when `list_rewrites` fails for a server. -/
def listErrorMsg (url e : String) : String :=
  "Error listing rewrites for server " ++ url ++ ": " ++ e

/-- The message appended when `add_rewrite` fails for a rule. -/
def addErrorMsg (r : Rewrite) (url e : String) : String :=
  "Error adding rewrite " ++ pyRewriteRepr r ++ " to server " ++ url ++ ": " ++ e

/-- The message appended when `delete_rewrite` fails for a rule. -/
def deleteErrorMsg (r : Rewrite) (url e : String) : String :=
  "Error deleting rewrite " ++ pyRewriteRepr r ++ " from server " ++ url ++
    ": " ++ e

/-- `handle_present_state(client, rewrites, current_rewrites, changed, errors,
server_url)`: for each desired rule not structurally present in
`current_rewrites`, call `add_rewrite`; on success set `changed`, on failure
append an error.  Returns `(changed, errors)` plus the issued calls. -/
def handle_present_state (env : Env) (client : Server)
    (rewrites current_rewrites : List Rewrite) (changed : Bool)
    (errors : List String) (server_url : String) :
    Bool × List String × List ApiCall :=
  match rewrites with
  | [] => (changed, errors, [])
  | rewrite :: rest =>
    if rewrite ∈ current_rewrites then
      handle_present_state env client rest current_rewrites changed errors
        server_url
    else
      match env.addResult client rewrite with
      | Except.ok _ =>
        let out := handle_present_state env client rest current_rewrites true
          errors server_url
        (out.1, out.2.1, ApiCall.add client rewrite :: out.2.2)
      | Except.error e =>
        let out := handle_present_state env client rest current_rewrites
          changed (errors ++ [addErrorMsg rewrite server_url e]) server_url
        (out.1, out.2.1, ApiCall.add client rewrite :: out.2.2)

/-- `handle_absent_state(client, rewrites, current_rewrites, changed, errors,
server_url)`: for each desired rule structurally present in
`current_rewrites`, call `delete_rewrite`; on success set `changed`, on
failure append an error. -/
def handle_absent_state (env : Env) (client : Server)
    (rewrites current_rewrites : List Rewrite) (changed : Bool)
    (errors : List String) (server_url : String) :
    Bool × List String × List ApiCall :=
  match rewrites with
  | [] => (changed, errors, [])
  | rewrite :: rest =>
    if rewrite ∈ current_rewrites then
      match env.deleteResult client rewrite with
      | Except.ok _ =>
        let out := handle_absent_state env client rest current_rewrites true
          errors server_url
        (out.1, out.2.1, ApiCall.delete client rewrite :: out.2.2)
      | Except.error e =>
        let out := handle_absent_state env client rest current_rewrites
          changed (errors ++ [deleteErrorMsg rewrite server_url e]) server_url
        (out.1, out.2.1, ApiCall.delete client rewrite :: out.2.2)
    else
      handle_absent_state env client rest current_rewrites changed errors
        server_url

/-- The `for server in servers` loop of `manage_rewrites`: fetch the current
rewrites once per server; on fetch failure append an error and continue with
the next server; otherwise dispatch on `state`. -/
def manage_rewrites_loop (env : Env) (state : String)
    (rewrites : List Rewrite) (servers : List Server) (changed : Bool)
    (errors : List String) : Bool × List String × List ApiCall :=
  match servers with
  | [] => (changed, errors, [])
  | server :: rest =>
    match env.listResult server with
    | Except.error e =>
      let out := manage_rewrites_loop env state rewrites rest changed
        (errors ++ [listErrorMsg server.url e])
      (out.1, out.2.1, ApiCall.list server :: out.2.2)
    | Except.ok current_rewrites =>
      if state = "present" then
        let h := handle_present_state env server rewrites current_rewrites
          changed errors server.url
        let out := manage_rewrites_loop env state rewrites rest h.1 h.2.1
        (out.1, out.2.1, ApiCall.list server :: (h.2.2 ++ out.2.2))
      else if state = "absent" then
        let h := handle_absent_state env server rewrites current_rewrites
          changed errors server.url
        let out := manage_rewrites_loop env state rewrites rest h.1 h.2.1
        (out.1, out.2.1, ApiCall.list server :: (h.2.2 ++ out.2.2))
      else
        let out := manage_rewrites_loop env state rewrites rest changed errors
        (out.1, out.2.1, ApiCall.list server :: out.2.2)

/-- `manage_rewrites(data)`: run the loop from `changed = False`,
`errors = []`; return `(True, changed, errors)` when errors accumulated,
`(False, changed, None)` otherwise. -/
def manage_rewrites (env : Env) (data : ModuleData) :
    Bool × Bool × Option (List String) :=
  let out := manage_rewrites_loop env data.state data.rewrites data.servers
    false []
  if out.2.1 ≠ [] then (true, out.1, some out.2.1)
  else (false, out.1, none)

/-- All API calls issued during one invocation. -/
def runTrace (env : Env) (data : ModuleData) : List ApiCall :=
  (manage_rewrites_loop env data.state data.rewrites data.servers false []).2.2

/-- The error list accumulated during one invocation. -/
def runErrors (env : Env) (data : ModuleData) : List String :=
  (manage_rewrites_loop env data.state data.rewrites data.servers false []).2.1

/-- The `changed` flag accumulated during one invocation. -/
def runChanged (env : Env) (data : ModuleData) : Bool :=
  (manage_rewrites_loop env data.state data.rewrites data.servers false []).1

/-- `main()`: `AnsibleModule` is constructed with
`supports_check_mode=True`, so the check-mode flag is available as
`check_mode`; the body then calls `manage_rewrites(module.params)` and maps
its result onto `fail_json` / `exit_json`.  The source never reads
`module.check_mode`, hence the parameter is unused. -/
def main_module (env : Env) (data : ModuleData) (check_mode : Bool) : ModuleResult :=
  let r := manage_rewrites env data
  if r.1 then
    ModuleResult.failJson "Error managing rewrites" r.2.2
  else
    ModuleResult.exitJson r.2.1
      (if r.2.1 then "rewrites modified" else "no changes needed") r.2.2

/-- One whole invocation as observed from outside: the result returned to
Ansible together with the API calls issued. -/
def run_module (env : Env) (data : ModuleData) (check_mode : Bool) :
    ModuleResult × List ApiCall :=
  (main_module env data check_mode, runTrace env data)

/-- Whether an `Except`-result of a mutation succeeded. -/
def mutOk : Except String Unit → Bool
  | Except.ok _ => true
  | Except.error _ => false

/-- Whether an `add` call for this server/rule would succeed in `env`. -/
def addOk (env : Env) (s : Server) (r : Rewrite) : Bool :=
  mutOk (env.addResult s r)

/-- Whether a `delete` call for this server/rule would succeed in `env`. -/
def deleteOk (env : Env) (s : Server) (r : Rewrite) : Bool :=
  mutOk (env.deleteResult s r)

/-- The calls a `present`-mode pass issues after the fetch: one `add` per
desired rule not present in the snapshot, in the supplied order. -/
def presentTrace (s : Server) (rws cur : List Rewrite) : List ApiCall :=
  (rws.filter (fun r => !decide (r ∈ cur))).map (ApiCall.add s)

/-- The errors a `present`-mode pass appends: one per failed `add`. -/
def presentErrors (env : Env) (s : Server) (rws cur : List Rewrite)
    (url : String) : List String :=
  rws.filterMap (fun r =>
    if r ∈ cur then none
    else
      match env.addResult s r with
      | Except.ok _ => none
      | Except.error e => some (addErrorMsg r url e))

/-- Whether a `present`-mode pass performs at least one successful `add`. -/
def presentChanged (env : Env) (s : Server) (rws cur : List Rewrite) : Bool :=
  rws.any (fun r => !decide (r ∈ cur) && addOk env s r)

/-- The calls an `absent`-mode pass issues after the fetch: one `delete` per
desired rule present in the snapshot, in the supplied order. -/
def absentTrace (s : Server) (rws cur : List Rewrite) : List ApiCall :=
  (rws.filter (fun r => decide (r ∈ cur))).map (ApiCall.delete s)

/-- The errors an `absent`-mode pass appends: one per failed `delete`. -/
def absentErrors (env : Env) (s : Server) (rws cur : List Rewrite)
    (url : String) : List String :=
  rws.filterMap (fun r =>
    if r ∈ cur then
      match env.deleteResult s r with
      | Except.ok _ => none
      | Except.error e => some (deleteErrorMsg r url e)
    else none)

/-- Whether an `absent`-mode pass performs at least one successful
`delete`. -/
def absentChanged (env : Env) (s : Server) (rws cur : List Rewrite) : Bool :=
  rws.any (fun r => decide (r ∈ cur) && deleteOk env s r)

/-- The calls one server's pass issues, fetch included. -/
def passTrace (env : Env) (state : String) (rws : List Rewrite)
    (s : Server) : List ApiCall :=
  match env.listResult s with
  | Except.error _ => [ApiCall.list s]
  | Except.ok cur =>
    if state = "present" then ApiCall.list s :: presentTrace s rws cur
    else if state = "absent" then ApiCall.list s :: absentTrace s rws cur
    else [ApiCall.list s]

/-- The errors one server's pass appends. -/
def passErrors (env : Env) (state : String) (rws : List Rewrite)
    (s : Server) : List String :=
  match env.listResult s with
  | Except.error e => [listErrorMsg s.url e]
  | Except.ok cur =>
    if state = "present" then presentErrors env s rws cur s.url
    else if state = "absent" then absentErrors env s rws cur s.url
    else []

/-- Whether one server's pass performs at least one successful mutation. -/
def passChanged (env : Env) (state : String) (rws : List Rewrite)
    (s : Server) : Bool :=
  match env.listResult s with
  | Except.error _ => false
  | Except.ok cur =>
    if state = "present" then presentChanged env s rws cur
    else if state = "absent" then absentChanged env s rws cur
    else false

/-- The server an API call is addressed to. -/
def callServer : ApiCall → Server
  | ApiCall.list s => s
  | ApiCall.add s _ => s
  | ApiCall.delete s _ => s

/-- Whether an API call is a mutation (add or delete) rather than a fetch. -/
def isMutation : ApiCall → Bool
  | ApiCall.list _ => false
  | ApiCall.add _ _ => true
  | ApiCall.delete _ _ => true

/-- Whether a call succeeds in `env`. -/
def callOk (env : Env) : ApiCall → Bool
  | ApiCall.list s =>
    match env.listResult s with
    | Except.ok _ => true
    | Except.error _ => false
  | ApiCall.add s r => addOk env s r
  | ApiCall.delete s r => deleteOk env s r

/-- Concrete fixtures for witnesses. -/
def srvA : Server := ⟨"http://h1", "admin", "pw"⟩

def srvB : Server := ⟨"http://h2", "admin", "pw"⟩

def ruleX : Rewrite := ⟨"x.com", "1.2.3.4"⟩

def ruleY : Rewrite := ⟨"y.com", "5.6.7.8"⟩

/-- Environment in which every call succeeds and every server's current
rewrite list is `[ruleY]`. -/
def envOk : Env where
  listResult := fun _ => Except.ok [ruleY]
  addResult := fun _ _ => Except.ok ()
  deleteResult := fun _ _ => Except.ok ()

/-- Environment in which `list` fails for `srvA` and succeeds (empty list)
elsewhere; all mutations succeed. -/
def envListFail : Env where
  listResult := fun s =>
    if s = srvA then Except.error "boom" else Except.ok []
  addResult := fun _ _ => Except.ok ()
  deleteResult := fun _ _ => Except.ok ()

/-- Environment in which mutations on `ruleX` fail and everything else
succeeds; the current list everywhere is `[ruleY]`. -/
def envMutFail : Env where
  listResult := fun _ => Except.ok [ruleY]
  addResult := fun _ r =>
    if r = ruleX then Except.error "boom" else Except.ok ()
  deleteResult := fun _ r =>
    if r = ruleX then Except.error "boom" else Except.ok ()

/-- The mode dispatch inside the server loop: `handle_present_state` when
`state == "present"`, `handle_absent_state` when `state == "absent"`, the
identity otherwise. -/
def handle_state (env : Env) (state : String) (client : Server)
    (rewrites current_rewrites : List Rewrite) (changed : Bool)
    (errors : List String) (server_url : String) :
    Bool × List String × List ApiCall :=
  if state = "present" then
    handle_present_state env client rewrites current_rewrites changed errors
      server_url
  else if state = "absent" then
    handle_absent_state env client rewrites current_rewrites changed errors
      server_url
  else (changed, errors, [])

/-- The mutation a mode issues for one rule. -/
def ruleCall (state : String) (s : Server) (r : Rewrite) : ApiCall :=
  if state = "present" then ApiCall.add s r else ApiCall.delete s r

/-- Whether a mode's membership test selects this rule for mutation:
`present` mutates rules absent from the snapshot, `absent` mutates rules
present in it. -/
def ruleEligible (state : String) (cur : List Rewrite) (r : Rewrite) : Bool :=
  if state = "present" then !decide (r ∈ cur) else decide (r ∈ cur)

/-- The environment's outcome for the mutation a mode issues on one rule. -/
def ruleResult (env : Env) (state : String) (s : Server) (r : Rewrite) :
    Except String Unit :=
  if state = "present" then env.addResult s r else env.deleteResult s r

/-- The error message appended when the mutation for one rule fails. -/
def ruleErrMsg (state : String) (r : Rewrite) (url e : String) : String :=
  if state = "present" then addErrorMsg r url e else deleteErrorMsg r url e

/-! ## Characterisation of the embedded functions -/

/-- `handle_present_state` decomposed: the resulting flag, the appended
errors and the issued calls, each as a function of the inputs. -/
theorem handle_present_state_eq (env : Env) (s : Server) (rws : List Rewrite) :
    ∀ (cur : List Rewrite) (changed : Bool) (errors : List String)
      (url : String),
    handle_present_state env s rws cur changed errors url =
      (changed || presentChanged env s rws cur,
       errors ++ presentErrors env s rws cur url,
       presentTrace s rws cur) := by
  induction rws with
  | nil =>
    intro cur changed errors url
    simp [handle_present_state, presentChanged, presentErrors, presentTrace]
  | cons r rest ih =>
    intro cur changed errors url
    by_cases h : r ∈ cur
    · simp [handle_present_state, h, ih, presentChanged, presentErrors,
        presentTrace]
    · cases hres : env.addResult s r with
      | ok u =>
        simp [handle_present_state, h, hres, ih, presentChanged,
          presentErrors, presentTrace, addOk, mutOk]
      | error e =>
        simp [handle_present_state, h, hres, ih, presentChanged,
          presentErrors, presentTrace, addOk, mutOk, List.append_assoc]

/-- `handle_absent_state` decomposed, as for `handle_present_state_eq`. -/
theorem handle_absent_state_eq (env : Env) (s : Server) (rws : List Rewrite) :
    ∀ (cur : List Rewrite) (changed : Bool) (errors : List String)
      (url : String),
    handle_absent_state env s rws cur changed errors url =
      (changed || absentChanged env s rws cur,
       errors ++ absentErrors env s rws cur url,
       absentTrace s rws cur) := by
  induction rws with
  | nil =>
    intro cur changed errors url
    simp [handle_absent_state, absentChanged, absentErrors, absentTrace]
  | cons r rest ih =>
    intro cur changed errors url
    by_cases h : r ∈ cur
    · cases hres : env.deleteResult s r with
      | ok u =>
        simp [handle_absent_state, h, hres, ih, absentChanged,
          absentErrors, absentTrace, deleteOk, mutOk]
      | error e =>
        simp [handle_absent_state, h, hres, ih, absentChanged,
          absentErrors, absentTrace, deleteOk, mutOk, List.append_assoc]
    · simp [handle_absent_state, h, ih, absentChanged, absentErrors,
        absentTrace]

/-- The server loop decomposed: each server contributes its pass's flag,
errors and calls independently of the accumulated state. -/
theorem manage_rewrites_loop_eq (env : Env) (state : String)
    (rws : List Rewrite) :
    ∀ (servers : List Server) (changed : Bool) (errors : List String),
    manage_rewrites_loop env state rws servers changed errors =
      (changed || servers.any (passChanged env state rws),
       errors ++ servers.flatMap (passErrors env state rws),
       servers.flatMap (passTrace env state rws)) := by
  intro servers
  induction servers with
  | nil => intro changed errors; simp [manage_rewrites_loop]
  | cons s rest ih =>
    intro changed errors
    cases hres : env.listResult s with
    | error e =>
      simp [manage_rewrites_loop, hres, ih, passChanged, passErrors,
        passTrace, List.append_assoc, Bool.or_assoc]
    | ok cur =>
      by_cases hp : state = "present"
      · subst hp
        simp [manage_rewrites_loop, hres, handle_present_state_eq, ih,
          passChanged, passErrors, passTrace, presentTrace,
          List.append_assoc, Bool.or_assoc]
      · by_cases ha : state = "absent"
        · subst ha
          simp [manage_rewrites_loop, hres, hp, handle_absent_state_eq,
            ih, passChanged, passErrors, passTrace, absentTrace,
            List.append_assoc, Bool.or_assoc]
        · simp [manage_rewrites_loop, hres, hp, ha, ih, passChanged,
            passErrors, passTrace, List.append_assoc, Bool.or_assoc]

/-- The full run's calls are the concatenation of the per-server passes. -/
theorem runTrace_eq (env : Env) (data : ModuleData) :
    runTrace env data =
      data.servers.flatMap (passTrace env data.state data.rewrites) := by
  simp [runTrace, manage_rewrites_loop_eq]

/-- The full run's errors are the concatenation of the per-server passes. -/
theorem runErrors_eq (env : Env) (data : ModuleData) :
    runErrors env data =
      data.servers.flatMap (passErrors env data.state data.rewrites) := by
  simp [runErrors, manage_rewrites_loop_eq]

/-- The run is `changed` exactly when some pass performed a successful
mutation. -/
theorem runChanged_eq (env : Env) (data : ModuleData) :
    runChanged env data =
      data.servers.any (passChanged env data.state data.rewrites) := by
  simp [runChanged, manage_rewrites_loop_eq]

/-- Every call in a server's pass is addressed to that server. -/
theorem callServer_of_mem_passTrace (env : Env) (state : String)
    (rws : List Rewrite) (s : Server) (c : ApiCall)
    (hc : c ∈ passTrace env state rws s) : callServer c = s := by
  unfold passTrace at hc
  cases hres : env.listResult s with
  | error e =>
    rw [hres] at hc
    simp at hc
    simp [hc, callServer]
  | ok cur =>
    rw [hres] at hc
    by_cases hp : state = "present"
    · simp [hp, presentTrace, List.mem_map] at hc
      rcases hc with h | ⟨r, _, rfl⟩
      · simp [h, callServer]
      · simp [callServer]
    · by_cases ha : state = "absent"
      · simp [hp, ha, absentTrace, List.mem_map] at hc
        rcases hc with h | ⟨r, _, rfl⟩
        · simp [h, callServer]
        · simp [callServer]
      · simp [hp, ha] at hc
        simp [hc, callServer]

/-- The fetch call is part of every server's pass. -/
theorem list_mem_passTrace (env : Env) (state : String) (rws : List Rewrite)
    (s : Server) : ApiCall.list s ∈ passTrace env state rws s := by
  unfold passTrace
  cases env.listResult s with
  | error e => simp
  | ok cur =>
    by_cases hp : state = "present"
    · simp [hp]
    · by_cases ha : state = "absent" <;> simp [hp, ha]

/-! ## Claims -/

/-- C1: when the fetch succeeds and the mode is `present`, the pass calls
`add` exactly for the desired rules, in supplied order, that match no rule
of the snapshot; a desired rule already present triggers no `add`; and the
run is the concatenation of such passes. -/
theorem claim_C1 (env : Env) (data : ModuleData) (s : Server)
    (cur : List Rewrite) (changed : Bool) (errors : List String)
    (url : String) (hstate : data.state = "present")
    (hlist : env.listResult s = Except.ok cur) :
    (handle_present_state env s data.rewrites cur changed errors url).2.2 =
      (data.rewrites.filter (fun r => !decide (r ∈ cur))).map
        (ApiCall.add s) ∧
    (∀ r, r ∈ cur →
      ApiCall.add s r ∉
        (handle_present_state env s data.rewrites cur changed errors
          url).2.2) ∧
    passTrace env data.state data.rewrites s =
      ApiCall.list s ::
        (handle_present_state env s data.rewrites cur changed errors
          url).2.2 ∧
    runTrace env data =
      data.servers.flatMap (passTrace env data.state data.rewrites) := by
  refine ⟨?_, ?_, ?_, runTrace_eq env data⟩
  · simp [handle_present_state_eq, presentTrace]
  · intro r hr
    simp [handle_present_state_eq, presentTrace, List.mem_map,
      List.mem_filter]
    intro _
    exact hr
  · simp [passTrace, hstate, hlist, handle_present_state_eq, presentTrace]

/-- C1 witness: one server, desired `[ruleX, ruleY]`, current `[ruleY]`:
exactly one `add`, for `ruleX`. -/
theorem claim_C1_witness :
    (ModuleData.mk [srvA] [ruleX, ruleY] "present").state = "present" ∧
    envOk.listResult srvA = Except.ok [ruleY] ∧
    runTrace envOk (ModuleData.mk [srvA] [ruleX, ruleY] "present") =
      [ApiCall.list srvA, ApiCall.add srvA ruleX] := by
  have h := claim_C1 envOk (ModuleData.mk [srvA] [ruleX, ruleY] "present")
    srvA [ruleY] false [] "http://h1" rfl rfl
  refine ⟨rfl, rfl, ?_⟩
  rw [h.2.2.2]
  decide

/-- C2: when the fetch succeeds and the mode is `absent`, the pass calls
`delete` exactly for the desired rules, in supplied order, that are present
in the snapshot; a desired rule already absent triggers no `delete`; and
the run is the concatenation of such passes. -/
theorem claim_C2 (env : Env) (data : ModuleData) (s : Server)
    (cur : List Rewrite) (changed : Bool) (errors : List String)
    (url : String) (hstate : data.state = "absent")
    (hlist : env.listResult s = Except.ok cur) :
    (handle_absent_state env s data.rewrites cur changed errors url).2.2 =
      (data.rewrites.filter (fun r => decide (r ∈ cur))).map
        (ApiCall.delete s) ∧
    (∀ r, r ∉ cur →
      ApiCall.delete s r ∉
        (handle_absent_state env s data.rewrites cur changed errors
          url).2.2) ∧
    passTrace env data.state data.rewrites s =
      ApiCall.list s ::
        (handle_absent_state env s data.rewrites cur changed errors
          url).2.2 ∧
    runTrace env data =
      data.servers.flatMap (passTrace env data.state data.rewrites) := by
  refine ⟨?_, ?_, ?_, runTrace_eq env data⟩
  · simp [handle_absent_state_eq, absentTrace]
  · intro r hr
    simp [handle_absent_state_eq, absentTrace, List.mem_map,
      List.mem_filter]
    intro _ hx
    exact hr hx
  · simp [passTrace, hstate, hlist, handle_absent_state_eq, absentTrace]

/-- C2 witness: one server, desired `[ruleX, ruleY]`, current `[ruleY]`:
exactly one `delete`, for `ruleY`. -/
theorem claim_C2_witness :
    (ModuleData.mk [srvA] [ruleX, ruleY] "absent").state = "absent" ∧
    envOk.listResult srvA = Except.ok [ruleY] ∧
    runTrace envOk (ModuleData.mk [srvA] [ruleX, ruleY] "absent") =
      [ApiCall.list srvA, ApiCall.delete srvA ruleY] := by
  have h := claim_C2 envOk (ModuleData.mk [srvA] [ruleX, ruleY] "absent")
    srvA [ruleY] false [] "http://h1" rfl rfl
  refine ⟨rfl, rfl, ?_⟩
  rw [h.2.2.2]
  decide

/-- C4: the invocation fails exactly when the accumulated error list is
non-empty, and the failing `manage_rewrites` result still carries the
partial `changed` flag and the full error list; `main` maps this onto
`fail_json` / `exit_json`. -/
theorem claim_C4 (env : Env) (data : ModuleData) (cm : Bool) :
    manage_rewrites env data =
      (decide (runErrors env data ≠ []), runChanged env data,
        if runErrors env data = [] then none
        else some (runErrors env data)) ∧
    main_module env data cm =
      (if runErrors env data = [] then
        ModuleResult.exitJson (runChanged env data)
          (if runChanged env data then "rewrites modified"
           else "no changes needed") none
       else
        ModuleResult.failJson "Error managing rewrites"
          (some (runErrors env data))) := by
  constructor
  · simp only [manage_rewrites, runErrors, runChanged]
    by_cases h : (manage_rewrites_loop env data.state data.rewrites
        data.servers false []).2.1 = [] <;> simp [h]
  · simp only [main_module, manage_rewrites, runErrors, runChanged]
    by_cases h : (manage_rewrites_loop env data.state data.rewrites
        data.servers false []).2.1 = [] <;> simp [h]

/-- C9: the check-mode flag is never consulted: result and issued calls are
identical with and without check mode. -/
theorem claim_C9 (env : Env) (data : ModuleData) (cm cm' : Bool) :
    run_module env data cm = run_module env data cm' := rfl

/-- C10: the accumulated state is monotone: each of the three accumulating
functions maps a `true` changed flag to `true`, and only ever appends to
the error list it is given. -/
theorem claim_C10 (env : Env) (s : Server) (state : String)
    (rws cur : List Rewrite) (servers : List Server) (changed : Bool)
    (errors : List String) (url : String) :
    (handle_present_state env s rws cur true errors url).1 = true ∧
    (∃ d, (handle_present_state env s rws cur changed errors url).2.1 =
      errors ++ d) ∧
    (handle_absent_state env s rws cur true errors url).1 = true ∧
    (∃ d, (handle_absent_state env s rws cur changed errors url).2.1 =
      errors ++ d) ∧
    (manage_rewrites_loop env state rws servers true errors).1 = true ∧
    (∃ d, (manage_rewrites_loop env state rws servers changed errors).2.1 =
      errors ++ d) := by
  refine ⟨?_, ?_, ?_, ?_, ?_, ?_⟩
  · simp [handle_present_state_eq]
  · exact ⟨presentErrors env s rws cur url, by simp [handle_present_state_eq]⟩
  · simp [handle_absent_state_eq]
  · exact ⟨absentErrors env s rws cur url, by simp [handle_absent_state_eq]⟩
  · simp [manage_rewrites_loop_eq]
  · exact ⟨servers.flatMap (passErrors env state rws),
      by simp [manage_rewrites_loop_eq]⟩

/-- C3: a failed fetch for server `A` contributes exactly one error,
tagged with `A`'s URL, and a pass with no mutation; no add/delete is ever
addressed to `A`, and all later servers are still processed. -/
theorem claim_C3 (env : Env) (data : ModuleData) (A : Server) (e : String)
    (pre post : List Server)
    (hfail : env.listResult A = Except.error e)
    (hservers : data.servers = pre ++ A :: post) :
    passErrors env data.state data.rewrites A = [listErrorMsg A.url e] ∧
    passTrace env data.state data.rewrites A = [ApiCall.list A] ∧
    runErrors env data =
      pre.flatMap (passErrors env data.state data.rewrites) ++
        listErrorMsg A.url e ::
          post.flatMap (passErrors env data.state data.rewrites) ∧
    (∀ r : Rewrite, ApiCall.add A r ∉ runTrace env data ∧
      ApiCall.delete A r ∉ runTrace env data) ∧
    (∀ B, B ∈ post → ApiCall.list B ∈ runTrace env data) := by
  have hpe : passErrors env data.state data.rewrites A =
      [listErrorMsg A.url e] := by
    simp [passErrors, hfail]
  have hpt : passTrace env data.state data.rewrites A = [ApiCall.list A] := by
    simp [passTrace, hfail]
  refine ⟨hpe, hpt, ?_, ?_, ?_⟩
  · rw [runErrors_eq, hservers]
    simp [hpe]
  · intro r
    constructor
    · intro hmem
      rw [runTrace_eq] at hmem
      rcases List.mem_flatMap.1 hmem with ⟨B, _, hcB⟩
      have hsrv := callServer_of_mem_passTrace env data.state data.rewrites
        B _ hcB
      simp [callServer] at hsrv
      rw [← hsrv] at hcB
      rw [hpt] at hcB
      simp at hcB
    · intro hmem
      rw [runTrace_eq] at hmem
      rcases List.mem_flatMap.1 hmem with ⟨B, _, hcB⟩
      have hsrv := callServer_of_mem_passTrace env data.state data.rewrites
        B _ hcB
      simp [callServer] at hsrv
      rw [← hsrv] at hcB
      rw [hpt] at hcB
      simp at hcB
  · intro B hB
    rw [runTrace_eq, hservers]
    exact List.mem_flatMap.2
      ⟨B, by simp [hB], list_mem_passTrace env data.state data.rewrites B⟩

/-- C3 witness: two servers, the first unreachable: one tagged error, and
the second server is still fetched. -/
theorem claim_C3_witness :
    envListFail.listResult srvA = Except.error "boom" ∧
    (ModuleData.mk [srvA, srvB] [ruleX] "present").servers =
      [] ++ srvA :: [srvB] ∧
    runErrors envListFail (ModuleData.mk [srvA, srvB] [ruleX] "present") =
      [listErrorMsg "http://h1" "boom"] ∧
    ApiCall.list srvB ∈
      runTrace envListFail (ModuleData.mk [srvA, srvB] [ruleX] "present") := by
  have h := claim_C3 envListFail
    (ModuleData.mk [srvA, srvB] [ruleX] "present") srvA "boom" [] [srvB]
    rfl rfl
  refine ⟨rfl, rfl, ?_, h.2.2.2.2 srvB (by simp)⟩
  rw [h.2.2.1]
  decide

/-- C5: when the mutation for one desired rule fails, the matching error
message tagged with URL and rule is recorded, every later eligible rule is
still attempted, and a later successful mutation still sets the flag. -/
theorem claim_C5 (env : Env) (state : String) (s : Server)
    (cur pre post : List Rewrite) (r : Rewrite) (changed : Bool)
    (errors : List String) (url e : String)
    (hmode : state = "present" ∨ state = "absent")
    (helig : ruleEligible state cur r = true)
    (hfail : ruleResult env state s r = Except.error e) :
    ruleErrMsg state r url e ∈
      (handle_state env state s (pre ++ r :: post) cur changed errors
        url).2.1 ∧
    (∀ r', r' ∈ post → ruleEligible state cur r' = true →
      ruleCall state s r' ∈
        (handle_state env state s (pre ++ r :: post) cur changed errors
          url).2.2) ∧
    (∀ r', r' ∈ post → ruleEligible state cur r' = true →
      mutOk (ruleResult env state s r') = true →
      (handle_state env state s (pre ++ r :: post) cur changed errors
        url).1 = true) := by
  rcases hmode with h | h
  · subst h
    simp [ruleEligible] at helig
    simp [ruleResult] at hfail
    have hh : handle_state env "present" s (pre ++ r :: post) cur changed
        errors url =
        (changed || presentChanged env s (pre ++ r :: post) cur,
         errors ++ presentErrors env s (pre ++ r :: post) cur url,
         presentTrace s (pre ++ r :: post) cur) := by
      simp [handle_state, handle_present_state_eq]
    refine ⟨?_, ?_, ?_⟩
    · have hmsg : ruleErrMsg "present" r url e = addErrorMsg r url e := by
        simp [ruleErrMsg]
      rw [hmsg, hh]
      refine List.mem_append.2 (Or.inr ?_)
      unfold presentErrors
      refine List.mem_filterMap.2 ⟨r, by simp, ?_⟩
      simp [helig, hfail]
    · intro r' hr' helig'
      simp [ruleEligible] at helig'
      have hrc : ruleCall "present" s r' = ApiCall.add s r' := by
        simp [ruleCall]
      rw [hrc, hh]
      unfold presentTrace
      exact List.mem_map.2
        ⟨r', List.mem_filter.2 ⟨by simp [hr'], by simp [helig']⟩, rfl⟩
    · intro r' hr' helig' hok
      simp [ruleEligible] at helig'
      simp [ruleResult] at hok
      rw [hh]
      rw [Bool.or_eq_true]
      right
      unfold presentChanged
      refine List.any_eq_true.2 ⟨r', by simp [hr'], ?_⟩
      simp [helig', addOk, hok]
  · subst h
    simp [ruleEligible] at helig
    simp [ruleResult] at hfail
    have hh : handle_state env "absent" s (pre ++ r :: post) cur changed
        errors url =
        (changed || absentChanged env s (pre ++ r :: post) cur,
         errors ++ absentErrors env s (pre ++ r :: post) cur url,
         absentTrace s (pre ++ r :: post) cur) := by
      simp [handle_state, handle_absent_state_eq]
    refine ⟨?_, ?_, ?_⟩
    · have hmsg : ruleErrMsg "absent" r url e = deleteErrorMsg r url e := by
        simp [ruleErrMsg]
      rw [hmsg, hh]
      refine List.mem_append.2 (Or.inr ?_)
      unfold absentErrors
      refine List.mem_filterMap.2 ⟨r, by simp, ?_⟩
      simp [helig, hfail]
    · intro r' hr' helig'
      simp [ruleEligible] at helig'
      have hrc : ruleCall "absent" s r' = ApiCall.delete s r' := by
        simp [ruleCall]
      rw [hrc, hh]
      unfold absentTrace
      exact List.mem_map.2
        ⟨r', List.mem_filter.2 ⟨by simp [hr'], by simp [helig']⟩, rfl⟩
    · intro r' hr' helig' hok
      simp [ruleEligible] at helig'
      simp [ruleResult] at hok
      rw [hh]
      rw [Bool.or_eq_true]
      right
      unfold absentChanged
      refine List.any_eq_true.2 ⟨r', by simp [hr'], ?_⟩
      simp [helig', deleteOk, hok]

/-- C5 witness: desired `[ruleX, ruleY]` against an empty snapshot with the
`add` of `ruleX` failing: the error is recorded, `ruleY` is still added and
sets the flag. -/
theorem claim_C5_witness :
    ruleEligible "present" [] ruleX = true ∧
    ruleResult envMutFail "present" srvA ruleX = Except.error "boom" ∧
    ruleErrMsg "present" ruleX "http://h1" "boom" ∈
      (handle_state envMutFail "present" srvA [ruleX, ruleY] [] false []
        "http://h1").2.1 ∧
    ruleCall "present" srvA ruleY ∈
      (handle_state envMutFail "present" srvA [ruleX, ruleY] [] false []
        "http://h1").2.2 ∧
    (handle_state envMutFail "present" srvA [ruleX, ruleY] [] false []
      "http://h1").1 = true := by
  have h := claim_C5 envMutFail "present" srvA [] [] [ruleY] ruleX false []
    "http://h1" "boom" (Or.inl rfl) (by decide) rfl
  exact ⟨by decide, rfl, h.1, h.2.1 ruleY (by simp) (by decide),
    h.2.2 ruleY (by simp) (by decide) (by decide)⟩

/-- An `add` call inside a pass can only carry a desired rule. -/
theorem rule_of_add_mem_passTrace (env : Env) (state : String)
    (rws : List Rewrite) (B s : Server) (r : Rewrite)
    (h : ApiCall.add s r ∈ passTrace env state rws B) : r ∈ rws := by
  unfold passTrace at h
  cases hres : env.listResult B with
  | error e =>
    rw [hres] at h
    simp at h
  | ok cur =>
    rw [hres] at h
    change ApiCall.add s r ∈
      (if state = "present" then ApiCall.list B :: presentTrace B rws cur
       else if state = "absent" then ApiCall.list B :: absentTrace B rws cur
       else [ApiCall.list B]) at h
    by_cases hp : state = "present"
    · rw [if_pos hp] at h
      rcases List.mem_cons.1 h with h1 | h2
      · simp at h1
      · rcases List.mem_map.1 h2 with ⟨x, hx, heq⟩
        injection heq with _ h4
        subst h4
        exact (List.mem_filter.1 hx).1
    · by_cases ha : state = "absent"
      · rw [if_neg hp, if_pos ha] at h
        rcases List.mem_cons.1 h with h1 | h2
        · simp at h1
        · rcases List.mem_map.1 h2 with ⟨x, hx, heq⟩
          simp at heq
      · rw [if_neg hp, if_neg ha] at h
        simp at h

/-- A `delete` call inside a pass can only carry a desired rule. -/
theorem rule_of_delete_mem_passTrace (env : Env) (state : String)
    (rws : List Rewrite) (B s : Server) (r : Rewrite)
    (h : ApiCall.delete s r ∈ passTrace env state rws B) : r ∈ rws := by
  unfold passTrace at h
  cases hres : env.listResult B with
  | error e =>
    rw [hres] at h
    simp at h
  | ok cur =>
    rw [hres] at h
    change ApiCall.delete s r ∈
      (if state = "present" then ApiCall.list B :: presentTrace B rws cur
       else if state = "absent" then ApiCall.list B :: absentTrace B rws cur
       else [ApiCall.list B]) at h
    by_cases hp : state = "present"
    · rw [if_pos hp] at h
      rcases List.mem_cons.1 h with h1 | h2
      · simp at h1
      · rcases List.mem_map.1 h2 with ⟨x, hx, heq⟩
        simp at heq
    · by_cases ha : state = "absent"
      · rw [if_neg hp, if_pos ha] at h
        rcases List.mem_cons.1 h with h1 | h2
        · simp at h1
        · rcases List.mem_map.1 h2 with ⟨x, hx, heq⟩
          injection heq with _ h4
          subst h4
          exact (List.mem_filter.1 hx).1
      · rw [if_neg hp, if_neg ha] at h
        simp at h

/-- C6: no mutation call is ever issued for a rule outside the desired
list; unlisted rules are untouched in either mode. -/
theorem claim_C6 (env : Env) (data : ModuleData) (s : Server) (r : Rewrite)
    (hr : r ∉ data.rewrites) :
    ApiCall.add s r ∉ runTrace env data ∧
    ApiCall.delete s r ∉ runTrace env data := by
  constructor
  · intro hmem
    rw [runTrace_eq] at hmem
    rcases List.mem_flatMap.1 hmem with ⟨B, _, hcB⟩
    exact hr (rule_of_add_mem_passTrace env data.state data.rewrites B s r hcB)
  · intro hmem
    rw [runTrace_eq] at hmem
    rcases List.mem_flatMap.1 hmem with ⟨B, _, hcB⟩
    exact hr
      (rule_of_delete_mem_passTrace env data.state data.rewrites B s r hcB)

/-- C6 witness: `ruleX` is not desired, so neither mutation for it appears
in the run. -/
theorem claim_C6_witness :
    ruleX ∉ (ModuleData.mk [srvA] [ruleY] "present").rewrites ∧
    ApiCall.add srvA ruleX ∉
      runTrace envOk (ModuleData.mk [srvA] [ruleY] "present") ∧
    ApiCall.delete srvA ruleX ∉
      runTrace envOk (ModuleData.mk [srvA] [ruleY] "present") := by
  have h := claim_C6 envOk (ModuleData.mk [srvA] [ruleY] "present") srvA
    ruleX (by decide)
  exact ⟨by decide, h.1, h.2⟩

/-- C7: with `present` mode and a successful fetch, the pass consists of
the single fetch followed only by mutations, all of which were checked
against the unmutated snapshot, so each occurrence of a missing desired
rule yields its own `add` call. -/
theorem claim_C7 (env : Env) (data : ModuleData) (s : Server)
    (cur : List Rewrite) (hstate : data.state = "present")
    (hlist : env.listResult s = Except.ok cur) :
    (∃ muts, passTrace env data.state data.rewrites s =
      ApiCall.list s :: muts ∧ ∀ c ∈ muts, isMutation c = true) ∧
    (passTrace env data.state data.rewrites s).count (ApiCall.list s) = 1 ∧
    (∀ r : Rewrite, r ∉ cur →
      (passTrace env data.state data.rewrites s).count (ApiCall.add s r) =
        data.rewrites.count r) := by
  have hpt : passTrace env data.state data.rewrites s =
      ApiCall.list s :: presentTrace s data.rewrites cur := by
    simp [passTrace, hstate, hlist]
  have hinj : Function.Injective (ApiCall.add s) := by
    intro a b hab
    simpa using hab
  refine ⟨⟨presentTrace s data.rewrites cur, hpt, ?_⟩, ?_, ?_⟩
  · intro c hc
    rcases List.mem_map.1 hc with ⟨x, _, rfl⟩
    rfl
  · rw [hpt, List.count_cons]
    have hz : (presentTrace s data.rewrites cur).count (ApiCall.list s) = 0 := by
      refine List.count_eq_zero.2 ?_
      intro hc
      rcases List.mem_map.1 hc with ⟨x, _, hx⟩
      exact absurd hx (by simp)
    simp [hz]
  · intro r hr
    rw [hpt, List.count_cons]
    unfold presentTrace
    rw [List.count_map_of_injective _ _ hinj,
      List.count_filter (by simp [hr])]
    simp

/-- C7 witness: the desired list contains `ruleX` twice and the snapshot is
`[ruleY]`: the fetch appears once, the `add` for `ruleX` twice. -/
theorem claim_C7_witness :
    (ModuleData.mk [srvA] [ruleX, ruleX] "present").state = "present" ∧
    envOk.listResult srvA = Except.ok [ruleY] ∧
    (passTrace envOk (ModuleData.mk [srvA] [ruleX, ruleX] "present").state
      (ModuleData.mk [srvA] [ruleX, ruleX] "present").rewrites srvA).count
        (ApiCall.list srvA) = 1 ∧
    (passTrace envOk (ModuleData.mk [srvA] [ruleX, ruleX] "present").state
      (ModuleData.mk [srvA] [ruleX, ruleX] "present").rewrites srvA).count
        (ApiCall.add srvA ruleX) = 2 := by
  have h := claim_C7 envOk (ModuleData.mk [srvA] [ruleX, ruleX] "present")
    srvA [ruleY] rfl rfl
  refine ⟨rfl, rfl, h.2.1, ?_⟩
  rw [h.2.2 ruleX (by decide)]
  decide

/-- `List.any` over a map, for maps that change the element type. -/
theorem list_any_map_general {α β : Type} (f : α → β) (l : List α)
    (p : β → Bool) : (l.map f).any p = l.any (fun a => p (f a)) := by
  induction l with
  | nil => rfl
  | cons a t ih => simp [ih]

/-- A pass changes the run exactly when some call it issued is a
successful mutation. -/
theorem passChanged_eq_any (env : Env) (state : String) (rws : List Rewrite)
    (s : Server) :
    passChanged env state rws s =
      (passTrace env state rws s).any
        (fun c => isMutation c && callOk env c) := by
  unfold passChanged passTrace
  cases env.listResult s with
  | error e => simp [isMutation]
  | ok cur =>
    by_cases hp : state = "present"
    · simp [hp, presentChanged, presentTrace, isMutation,
        list_any_map_general, List.any_filter, callOk]
    · by_cases ha : state = "absent"
      · simp [hp, ha, absentChanged, absentTrace, isMutation,
          list_any_map_general, List.any_filter, callOk]
      · simp [hp, ha, isMutation]

/-- C8: the reported `changed` flag is true exactly when some issued add or
delete call succeeded; the flag the module reports is the accumulated
one. -/
theorem claim_C8 (env : Env) (data : ModuleData) :
    runChanged env data =
      (runTrace env data).any (fun c => isMutation c && callOk env c) ∧
    (manage_rewrites env data).2.1 = runChanged env data := by
  constructor
  · rw [runChanged_eq, runTrace_eq, List.any_flatMap]
    have hfun : passChanged env data.state data.rewrites = fun s =>
        (passTrace env data.state data.rewrites s).any
          (fun c => isMutation c && callOk env c) :=
      funext (passChanged_eq_any env data.state data.rewrites)
    rw [hfun]
  · simp only [manage_rewrites, runChanged]
    by_cases h : (manage_rewrites_loop env data.state data.rewrites
        data.servers false []).2.1 = [] <;> simp [h]
